import Mathlib

/-!
Shallow embedding of the task time-log encoding and the aggregation
arithmetic of the invoiceninja MCP tool layer.

A stored time log is JSON text holding a list of 1- or 2-element integer
arrays.  We embed an entry as `List ℤ` and a whole log as `List (List ℤ)`.
The result of `json.loads` on the stored `time_log` text is embedded as
`Option (List (List ℤ))`: `none` models text that fails to parse (the
`except` branch of the Python code), `some logs` a successful parse.

Python truthiness on an integer is `≠ 0`; `x or y` on numbers returns `y`
exactly when `x = 0`.
-/

namespace Ninja

/-- Embeds `log[0] if len(log) > 0 else 0` (tasks.py line 52 and analogues). -/
def sessionStart (log : List ℤ) : ℤ := log.getD 0 0

/-- Embeds `log[1] if len(log) > 1 and log[1] else 0` (tasks.py line 53 and
analogues): the stored end timestamp, with a missing or falsy (zero)
second element collapsing to 0. -/
def sessionEnd0 (log : List ℤ) : ℤ :=
  if 1 < log.length ∧ log.getD 1 0 ≠ 0 then log.getD 1 0 else 0

/-- One iteration of the `get_tasks` time-log loop (tasks.py lines 51-58):
state is `(total_seconds, is_running)`. -/
def getTasksStep (now : ℤ) (acc : ℤ × Bool) (log : List ℤ) : ℤ × Bool :=
  let s := sessionStart log
  let e0 := sessionEnd0 log
  let running := if e0 = 0 ∧ 0 < s then true else acc.2
  let e := if e0 = 0 ∧ 0 < s then now else e0
  if s ≠ 0 ∧ e ≠ 0 then (acc.1 + (e - s), running) else (acc.1, running)

/-- The `get_tasks` per-task derivation over a parsed log:
`(total_seconds, is_running)` (tasks.py lines 49-58). -/
def getTasksElapsed (logs : List (List ℤ)) (now : ℤ) : ℤ × Bool :=
  logs.foldl (getTasksStep now) (0, false)

/-- The `get_tasks` derivation over the raw stored text: a parse failure
(`none`) lands in the `except` branch, yielding zero hours and not
running (tasks.py lines 60-62). -/
def getTasksDerive (tl : Option (List (List ℤ))) (now : ℤ) : ℤ × Bool :=
  match tl with
  | none => (0, false)
  | some logs => getTasksElapsed logs now

/-- One iteration of the `get_task_details` loop (tasks.py lines 96-108):
state is `(total_seconds, is_running, per-session durations)`. -/
def getTaskDetailsStep (now : ℤ) (acc : ℤ × Bool × List ℤ) (log : List ℤ) :
    ℤ × Bool × List ℤ :=
  let s := sessionStart log
  let e0 := sessionEnd0 log
  let running := if e0 = 0 ∧ 0 < s then true else acc.2.1
  let e := if e0 = 0 ∧ 0 < s then now else e0
  if s ≠ 0 ∧ e ≠ 0 then (acc.1 + (e - s), running, acc.2.2 ++ [e - s])
  else (acc.1, running, acc.2.2)

/-- The `get_task_details` derivation over a parsed log
(tasks.py lines 91-110). -/
def getTaskDetailsElapsed (logs : List (List ℤ)) (now : ℤ) : ℤ × Bool × List ℤ :=
  logs.foldl (getTaskDetailsStep now) (0, false, [])

/-- Embeds `get_task_details` over the raw stored text; parse failure yields
zero hours, not running, no entries (tasks.py lines 111-114). -/
def getTaskDetailsDerive (tl : Option (List (List ℤ))) (now : ℤ) :
    ℤ × Bool × List ℤ :=
  match tl with
  | none => (0, false, [])
  | some logs => getTaskDetailsElapsed logs now

/-- Embeds `logs and len(logs[-1]) == 1`: the running check used by the
mutation paths `start_task`/`stop_task` (tasks.py lines 190, 224) and by
the dashboard's running-timer count (reports.py line 377). -/
def lastLenOne (logs : List (List ℤ)) : Bool :=
  match logs.getLast? with
  | some l => l.length == 1
  | none => false

/-- One entry's contribution to the listing-path running flag
(tasks.py line 54): stored end collapses to 0 and start is positive. -/
def entryOpenFlag (log : List ℤ) : Bool :=
  decide (sessionEnd0 log = 0 ∧ 0 < sessionStart log)

/-- The running check effectively used by the listing/detail paths:
some entry has a positive start and an absent-or-zero end. -/
def isRunningListing (logs : List (List ℤ)) : Bool :=
  logs.any entryOpenFlag

/-- Outcome of `start_task` (tasks.py lines 189-202). -/
inductive StartResult
  | alreadyRunning
  | started
deriving DecidableEq, Repr

/-- Outcome of `stop_task` (tasks.py lines 223-241). -/
inductive StopResult
  | notRunning
  | stopped (sessionDuration : ℤ)
deriving DecidableEq, Repr

/-- Embeds `start_task` (tasks.py lines 175-206) as a function of the stored
log and the clock.  The first component is the stored value after the
call: unchanged when no PUT is issued, the dumped new list otherwise.
A parse failure on read (`none`) falls back to the empty list
(lines 184-187). -/
def startTask (stored : Option (List (List ℤ))) (now : ℤ) :
    Option (List (List ℤ)) × StartResult :=
  let logs := stored.getD []
  if lastLenOne logs then (stored, .alreadyRunning)
  else (some (logs ++ [[now]]), .started)

/-- Embeds `stop_task` (tasks.py lines 209-245): running means the last entry
has exactly one element; stopping appends `now` to it and reports the
closed session's own duration. -/
def stopTask (stored : Option (List (List ℤ))) (now : ℤ) :
    Option (List (List ℤ)) × StopResult :=
  let logs := stored.getD []
  if lastLenOne logs then
    let lastE := (logs.getLast?).getD []
    let startT := lastE.getD 0 0
    (some (logs.dropLast ++ [lastE ++ [now]]), .stopped (now - startT))
  else (stored, .notRunning)

/-- Python `int()` truncation toward zero on a rational. -/
def pyInt (q : ℚ) : ℤ := q.num.tdiv (q.den : ℤ)

/-- Embeds `log_time` (tasks.py lines 248-292): appends
`[now - int(hours*3600), now]` unconditionally; the hours parameter is a
Python float, embedded as `ℚ`. -/
def logTime (stored : Option (List (List ℤ))) (hours : ℚ) (now : ℤ) :
    Option (List (List ℤ)) :=
  let logs := stored.getD []
  let startT := now - pyInt (hours * 3600)
  some (logs ++ [[startT, now]])

/-- A task as the aggregation paths see it: parsed (or unparseable)
time-log text, own hourly rate, and whether `invoice_id` is truthy. -/
structure Task where
  timeLog : Option (List (List ℤ))
  rate : ℚ
  invoiced : Bool

/-- Embeds `float(t.get('rate', 0)) or task_rate` (projects.py line 202). -/
def resolveRate (rate taskRate : ℚ) : ℚ := if rate = 0 then taskRate else rate

/-- One entry's contribution in `get_billable_hours` (tasks.py lines
334-338): a missing/falsy stored end is replaced by `now` outright. -/
def billableStep (now : ℤ) (acc : ℤ) (log : List ℤ) : ℤ :=
  let s := sessionStart log
  let e := if 1 < log.length ∧ log.getD 1 0 ≠ 0 then log.getD 1 0 else now
  if s ≠ 0 ∧ e ≠ 0 then acc + (e - s) else acc

/-- Seconds of one task in `get_billable_hours`; parse failure contributes 0
(tasks.py lines 331-341). -/
def billableTaskSeconds (tl : Option (List (List ℤ))) (now : ℤ) : ℤ :=
  match tl with
  | none => 0
  | some logs => logs.foldl (billableStep now) 0

/-- Hours of one task in `get_billable_hours`. -/
def billableTaskHours (t : Task) (now : ℤ) : ℚ :=
  (billableTaskSeconds t.timeLog now : ℚ) / 3600

/-- Accumulator of `get_billable_hours` (tasks.py lines 319-349):
running totals plus one `(hours, billable)` summary per counted task. -/
structure BillAgg where
  totalHours : ℚ
  totalBillable : ℚ
  summaries : List (ℚ × ℚ)
deriving DecidableEq

/-- One task's processing in `get_billable_hours` (tasks.py lines
323-349): invoiced tasks are skipped, and a task is counted only when
its hours are strictly positive. -/
def billableHoursStep (now : ℤ) (acc : BillAgg) (t : Task) : BillAgg :=
  if t.invoiced then acc
  else
    let h := billableTaskHours t now
    if 0 < h then
      { totalHours := acc.totalHours + h,
        totalBillable := acc.totalBillable + h * t.rate,
        summaries := acc.summaries ++ [(h, h * t.rate)] }
    else acc

/-- The `get_billable_hours` aggregation over a task collection. -/
def getBillableHoursAgg (tasks : List Task) (now : ℤ) : BillAgg :=
  tasks.foldl (billableHoursStep now) ⟨0, 0, []⟩

/-- The truncated task list actually displayed:
`task_summaries[:10]` (tasks.py line 358). -/
def billableShown (tasks : List Task) (now : ℤ) : List (ℚ × ℚ) :=
  (getBillableHoursAgg tasks now).summaries.take 10

/-- One line of the project-summary task breakdown
(projects.py lines 226 and 228): either a full line with hours, running
flag and billable amount, or the bare `0h` line emitted when the task's
log fails to parse. -/
inductive BreakdownLine
  | line (hours : ℚ) (running : Bool) (amount : ℚ)
  | failed
deriving DecidableEq

/-- Accumulator of the `get_project_summary` task loop
(projects.py lines 194-228). -/
structure ProjAgg where
  totalHours : ℚ
  runningTasks : ℕ
  breakdown : List BreakdownLine
deriving DecidableEq

/-- One task's processing in `get_project_summary` (projects.py lines
198-228): the per-task elapsed loop is the same as `get_tasks`; the
line's rate is the task rate with the project `task_rate` as fallback
for zero; a parse failure appends the bare line and touches no total. -/
def projectStep (taskRate : ℚ) (now : ℤ) (acc : ProjAgg) (t : Task) : ProjAgg :=
  let rate := resolveRate t.rate taskRate
  match t.timeLog with
  | none => { acc with breakdown := acc.breakdown ++ [.failed] }
  | some logs =>
    let r := getTasksElapsed logs now
    let taskHours : ℚ := (r.1 : ℚ) / 3600
    { totalHours := acc.totalHours + taskHours,
      runningTasks := acc.runningTasks + (if r.2 then 1 else 0),
      breakdown := acc.breakdown ++ [.line taskHours r.2 (taskHours * rate)] }

/-- The `get_project_summary` aggregation over the project's tasks. -/
def getProjectSummaryAgg (tasks : List Task) (taskRate : ℚ) (now : ℤ) : ProjAgg :=
  tasks.foldl (projectStep taskRate now) ⟨0, 0, []⟩

/-- Embeds `total_billable = total_hours * task_rate` (projects.py line 231). -/
def projectTotalBillable (tasks : List Task) (taskRate : ℚ) (now : ℤ) : ℚ :=
  (getProjectSummaryAgg tasks taskRate now).totalHours * taskRate

/-- The total billable amount as the spec describes it: the sum over the
tasks of elapsed hours times the task's resolved rate (own rate, with
the project `task_rate` as fallback when zero/absent).  Stated from the
spec's words for comparison with `projectTotalBillable`. -/
def specResolvedTotalBillable (tasks : List Task) (taskRate : ℚ) (now : ℤ) : ℚ :=
  (tasks.map (fun t =>
    ((getTasksDerive t.timeLog now).1 : ℚ) / 3600 * resolveRate t.rate taskRate)).sum

/-- The per-task hours as accumulated by `get_project_summary`
(0 for an unparseable log). -/
def projTaskHours (t : Task) (now : ℤ) : ℚ :=
  ((getTasksDerive t.timeLog now).1 : ℚ) / 3600

/-- The `get_revenue_by_client` output after the per-client aggregation
(reports.py lines 178-197): clients sorted by total descending (Python's
stable sort), the grand total summed over the full sorted list, and one
display line per client in the truncated `sorted_clients[:limit]`, whose
percentage divides by the grand total. -/
structure RevReport where
  totalRevenue : ℚ
  clientCount : ℕ
  shown : List (ℕ × ℚ × ℚ)
deriving DecidableEq

/-- Embeds `get_revenue_by_client` from the aggregated per-client totals
(client ids embedded as `ℕ`). -/
def getRevenueByClient (clientRevenue : List (ℕ × ℚ)) (limit : ℕ) : RevReport :=
  let sorted := clientRevenue.mergeSort (fun a b => decide (b.2 ≤ a.2))
  let total := (sorted.map (fun c => c.2)).sum
  { totalRevenue := total,
    clientCount := sorted.length,
    shown := (sorted.take limit).map
      (fun c => (c.1, c.2, if 0 < total then c.2 / total * 100 else 0)) }

/-- Whether `get_billable_hours` counts a task: not yet invoiced and
with strictly positive hours. -/
def billCounted (now : ℤ) (t : Task) : Bool :=
  !t.invoiced && decide (0 < billableTaskHours t now)

/-- The summary entry `get_billable_hours` emits for a counted task. -/
def billLine (now : ℤ) (t : Task) : ℚ × ℚ :=
  (billableTaskHours t now, billableTaskHours t now * t.rate)

/-- The breakdown line `get_project_summary` emits for one task. -/
def projLine (taskRate : ℚ) (now : ℤ) (t : Task) : BreakdownLine :=
  match t.timeLog with
  | none => .failed
  | some logs =>
    let r := getTasksElapsed logs now
    .line ((r.1 : ℚ) / 3600) r.2 ((r.1 : ℚ) / 3600 * resolveRate t.rate taskRate)

/-- One task's contribution to the project summary's running-task count. -/
def projRunningCount (now : ℤ) (t : Task) : ℕ :=
  match t.timeLog with
  | none => 0
  | some logs => if (getTasksElapsed logs now).2 then 1 else 0

/-! Helper lemmas about the listing/detail elapsed loops. -/

theorem sessionEnd0_pair (s e : ℤ) (he : e ≠ 0) : sessionEnd0 [s, e] = e := by
  simp [sessionEnd0, he]

theorem sessionEnd0_single (s : ℤ) : sessionEnd0 [s] = 0 := by
  simp [sessionEnd0]

theorem getTasksStep_closed (now a : ℤ) (b : Bool) (s e : ℤ)
    (hs : 0 < s) (he : e ≠ 0) :
    getTasksStep now (a, b) [s, e] = (a + (e - s), b) := by
  simp [getTasksStep, sessionStart, sessionEnd0_pair s e he, he, hs.ne']

theorem getTasksStep_open (now a : ℤ) (b : Bool) (s : ℤ)
    (hs : 0 < s) (hn : now ≠ 0) :
    getTasksStep now (a, b) [s] = (a + (now - s), true) := by
  simp [getTasksStep, sessionStart, sessionEnd0_single, hs, hs.ne', hn]

theorem foldl_getTasksStep_closed (now : ℤ) (closed : List (ℤ × ℤ))
    (hc : ∀ p ∈ closed, 0 < p.1 ∧ p.2 ≠ 0) (a : ℤ) (b : Bool) :
    (closed.map (fun p => [p.1, p.2])).foldl (getTasksStep now) (a, b)
      = (a + (closed.map (fun p => p.2 - p.1)).sum, b) := by
  induction closed generalizing a with
  | nil => simp
  | cons p ps ih =>
    obtain ⟨hp1, hp2⟩ := hc p (by simp)
    simp only [List.map_cons, List.foldl_cons, List.sum_cons]
    rw [getTasksStep_closed now a b p.1 p.2 hp1 hp2,
      ih (fun q hq => hc q (List.mem_cons_of_mem _ hq)) _, add_assoc]

theorem getTaskDetailsStep_closed (now a : ℤ) (b : Bool) (ds : List ℤ)
    (s e : ℤ) (hs : 0 < s) (he : e ≠ 0) :
    getTaskDetailsStep now (a, b, ds) [s, e] = (a + (e - s), b, ds ++ [e - s]) := by
  simp [getTaskDetailsStep, sessionStart, sessionEnd0_pair s e he, he, hs.ne']

theorem getTaskDetailsStep_open (now a : ℤ) (b : Bool) (ds : List ℤ)
    (s : ℤ) (hs : 0 < s) (hn : now ≠ 0) :
    getTaskDetailsStep now (a, b, ds) [s] = (a + (now - s), true, ds ++ [now - s]) := by
  simp [getTaskDetailsStep, sessionStart, sessionEnd0_single, hs, hs.ne', hn]

theorem foldl_detailsStep_closed (now : ℤ) (closed : List (ℤ × ℤ))
    (hc : ∀ p ∈ closed, 0 < p.1 ∧ p.2 ≠ 0) (a : ℤ) (b : Bool) (ds : List ℤ) :
    (closed.map (fun p => [p.1, p.2])).foldl (getTaskDetailsStep now) (a, b, ds)
      = (a + (closed.map (fun p => p.2 - p.1)).sum, b,
         ds ++ closed.map (fun p => p.2 - p.1)) := by
  induction closed generalizing a ds with
  | nil => simp
  | cons p ps ih =>
    obtain ⟨hp1, hp2⟩ := hc p (by simp)
    simp only [List.map_cons, List.foldl_cons, List.sum_cons]
    rw [getTaskDetailsStep_closed now a b ds p.1 p.2 hp1 hp2,
      ih (fun q hq => hc q (List.mem_cons_of_mem _ hq)) _, add_assoc]
    simp

/-- C1: on a well-formed log of closed sessions followed by one open
session, the task-listing derivation (`get_tasks`) and the task-detail
derivation (`get_task_details`) both report `is_running = true` and an
elapsed total of the sum of the closed durations plus `now - sn`. -/
theorem listing_detail_running_elapsed (closed : List (ℤ × ℤ)) (sn now : ℤ)
    (hc : ∀ p ∈ closed, 0 < p.1 ∧ 0 < p.2) (hsn : 0 < sn) (hnow : 0 < now) :
    getTasksElapsed (closed.map (fun p => [p.1, p.2]) ++ [[sn]]) now
      = ((closed.map (fun p => p.2 - p.1)).sum + (now - sn), true) ∧
    getTaskDetailsElapsed (closed.map (fun p => [p.1, p.2]) ++ [[sn]]) now
      = ((closed.map (fun p => p.2 - p.1)).sum + (now - sn), true,
         closed.map (fun p => p.2 - p.1) ++ [now - sn]) := by
  have hc' : ∀ p ∈ closed, 0 < p.1 ∧ p.2 ≠ 0 :=
    fun p hp => ⟨(hc p hp).1, (hc p hp).2.ne'⟩
  constructor
  · unfold getTasksElapsed
    rw [List.foldl_append, foldl_getTasksStep_closed now closed hc' 0 false]
    simp only [List.foldl_cons, List.foldl_nil]
    rw [getTasksStep_open now _ false sn hsn hnow.ne', zero_add]
  · unfold getTaskDetailsElapsed
    rw [List.foldl_append, foldl_detailsStep_closed now closed hc' 0 false []]
    simp only [List.foldl_cons, List.foldl_nil]
    rw [getTaskDetailsStep_open now _ false _ sn hsn hnow.ne', zero_add,
      List.nil_append]

theorem listing_detail_running_elapsed_witness :
    (∀ p ∈ [((1000 : ℤ), (4600 : ℤ))], 0 < p.1 ∧ 0 < p.2) ∧
    getTasksElapsed [[(1000 : ℤ), 4600], [5000]] 6000 = (4600, true) ∧
    getTaskDetailsElapsed [[(1000 : ℤ), 4600], [5000]] 6000
      = (4600, true, [3600, 1000]) := by
  have h := listing_detail_running_elapsed [((1000 : ℤ), (4600 : ℤ))] 5000 6000
    (by decide) (by decide) (by decide)
  refine ⟨by decide, ?_, ?_⟩
  · have h1 := h.1
    norm_num at h1
    exact h1
  · have h2 := h.2
    norm_num at h2
    exact h2

/-! Start, stop and manual log. -/

/-- C3: `start_task` on a running stored log (last entry a 1-element
array) reports already-running and leaves the store untouched;
otherwise it writes back exactly the old log extended by `[now]`. -/
theorem start_spec (L : List (List ℤ)) (now : ℤ) :
    (lastLenOne L = true → startTask (some L) now = (some L, .alreadyRunning)) ∧
    (lastLenOne L = false → startTask (some L) now = (some (L ++ [[now]]), .started)) := by
  constructor <;> intro h <;> simp [startTask, h]

theorem start_spec_witness :
    startTask (some [[(5 : ℤ)]]) 9 = (some [[5]], .alreadyRunning) ∧
    startTask (some [[(1 : ℤ), 2]]) 9 = (some [[1, 2], [9]], .started) :=
  ⟨(start_spec [[(5 : ℤ)]] 9).1 (by decide),
   (start_spec [[(1 : ℤ), 2]] 9).2 (by decide)⟩

/-- C4: `stop_task` on a non-running stored log reports not-running and
leaves the store untouched; on a running log it closes the last session
with `end = now`, keeps the earlier sessions unchanged, and reports that
session's own duration `now - start` (not the cumulative total). -/
theorem stop_spec (L : List (List ℤ)) (now : ℤ) :
    (lastLenOne L = false → stopTask (some L) now = (some L, .notRunning)) ∧
    (∀ s : ℤ, L.getLast? = some [s] →
      stopTask (some L) now
        = (some (L.dropLast ++ [[s, now]]), .stopped (now - s))) := by
  constructor
  · intro h; simp [stopTask, h]
  · intro s hs
    have hrun : lastLenOne L = true := by simp [lastLenOne, hs]
    simp [stopTask, hrun, hs]

theorem stop_spec_witness :
    stopTask (some [[(1 : ℤ), 2]]) 9 = (some [[1, 2]], .notRunning) ∧
    stopTask (some [[(1 : ℤ), 2], [5]]) 9 = (some [[1, 2], [5, 9]], .stopped 4) := by
  refine ⟨(stop_spec [[(1 : ℤ), 2]] 9).1 (by decide), ?_⟩
  have h := (stop_spec [[(1 : ℤ), 2], [5]] 9).2 5 (by decide)
  norm_num at h
  exact h

/-- C5: `log_time` appends the single closed session
`[T - hours*3600, T]` at the end of the stored log, whatever the log's
running state, leaving every existing session unchanged (stated for a
duration that is a whole number of seconds, as in the spec's examples;
the code truncates `hours*3600` to an integer). -/
theorem log_manual_appends (L : List (List ℤ)) (h : ℚ) (T d : ℤ)
    (hd : h * 3600 = (d : ℚ)) :
    logTime (some L) h T = some (L ++ [[T - d, T]]) := by
  have hp : pyInt (h * 3600) = d := by
    rw [hd]
    simp [pyInt, Rat.num_intCast, Rat.den_intCast]
  simp [logTime, hp]

theorem log_manual_appends_witness :
    logTime (some [[(5 : ℤ)]]) 2 10000 = some [[5], [2800, 10000]] := by
  have h := log_manual_appends [[(5 : ℤ)]] 2 10000 7200 (by norm_num)
  norm_num at h
  exact h

/-! The two running-state checks. -/

theorem entryOpenFlag_closed (s e : ℤ) (he : e ≠ 0) :
    entryOpenFlag [s, e] = false := by
  simp [entryOpenFlag, sessionEnd0_pair s e he, he]

theorem entryOpenFlag_single (s : ℤ) (hs : 0 < s) :
    entryOpenFlag [s] = true := by
  simp [entryOpenFlag, sessionEnd0_single, sessionStart, hs]

theorem isRunningListing_closed (closed : List (ℤ × ℤ))
    (hc : ∀ p ∈ closed, 0 < p.1 ∧ p.2 ≠ 0) :
    isRunningListing (closed.map (fun p => [p.1, p.2])) = false := by
  rw [isRunningListing, List.any_eq_false]
  intro l hl
  obtain ⟨p, hp, rfl⟩ := List.mem_map.mp hl
  simp [entryOpenFlag_closed p.1 p.2 (hc p hp).2]

theorem lastLenOne_concat (l : List (List ℤ)) (x : List ℤ) :
    lastLenOne (l ++ [x]) = (x.length == 1) := by
  simp [lastLenOne, List.getLast?_concat]

/-- C9 counterexample: on the stored log `[[5, 0]]` — a 2-element last
entry with end 0 — the listing/detail check reports running while the
mutation/dashboard check reports not running. -/
theorem running_checks_disagree :
    isRunningListing [[(5 : ℤ), 0]] ≠ lastLenOne [[(5 : ℤ), 0]] := by decide

/-- C9 amended: the two running-state checks agree on every well-formed
log — every session a closed pair with positive start and positive end,
except that the last may instead be a 1-element open entry with positive
start.  (They disagree on a log whose last entry is a 2-element array
with end 0, per the counterexample.) -/
theorem running_checks_agree_wf (closed : List (ℤ × ℤ))
    (hc : ∀ p ∈ closed, 0 < p.1 ∧ 0 < p.2) :
    (isRunningListing (closed.map (fun p => [p.1, p.2]))
       = lastLenOne (closed.map (fun p => [p.1, p.2]))) ∧
    ∀ sn : ℤ, 0 < sn →
      isRunningListing (closed.map (fun p => [p.1, p.2]) ++ [[sn]])
        = lastLenOne (closed.map (fun p => [p.1, p.2]) ++ [[sn]]) := by
  have hc' : ∀ p ∈ closed, 0 < p.1 ∧ p.2 ≠ 0 :=
    fun p hp => ⟨(hc p hp).1, (hc p hp).2.ne'⟩
  constructor
  · rw [isRunningListing_closed closed hc']
    induction closed using List.reverseRecOn with
    | nil => rfl
    | append_singleton ps p _ =>
      rw [List.map_append]
      simp [lastLenOne_concat]
  · intro sn hsn
    rw [lastLenOne_concat, isRunningListing, List.any_append]
    have h1 := isRunningListing_closed closed hc'
    rw [isRunningListing] at h1
    rw [h1]
    simp [entryOpenFlag_single sn hsn]

theorem running_checks_agree_wf_witness :
    (∀ p ∈ [((1000 : ℤ), (4600 : ℤ))], 0 < p.1 ∧ 0 < p.2) ∧
    isRunningListing [[(1000 : ℤ), 4600]] = lastLenOne [[(1000 : ℤ), 4600]] ∧
    isRunningListing [[(1000 : ℤ), 4600], [5000]]
      = lastLenOne [[(1000 : ℤ), 4600], [5000]] := by
  have h := running_checks_agree_wf [((1000 : ℤ), (4600 : ℤ))] (by decide)
  exact ⟨by decide, by simpa using h.1, by simpa using h.2 5000 (by decide)⟩

/-- C10: `start_task` on a task whose stored `time_log` text does not
parse treats it as the empty log: it succeeds (no already-running
failure) and the value written back is exactly `[[now]]`, replacing the
malformed content. -/
theorem start_malformed_writes_singleton (now : ℤ) :
    startTask none now = (some [[now]], .started) := rfl

/-! Characterizing the fold of the unbilled-hours report. -/

theorem foldl_billStep (now : ℤ) (ts : List Task) (acc : BillAgg) :
    ts.foldl (billableHoursStep now) acc =
      { totalHours := acc.totalHours
          + ((ts.filter (billCounted now)).map (fun t => billableTaskHours t now)).sum,
        totalBillable := acc.totalBillable
          + ((ts.filter (billCounted now)).map
              (fun t => billableTaskHours t now * t.rate)).sum,
        summaries := acc.summaries ++ (ts.filter (billCounted now)).map (billLine now) } := by
  induction ts generalizing acc with
  | nil => simp
  | cons t ts ih =>
    rw [List.foldl_cons, ih (billableHoursStep now acc t)]
    by_cases hinv : t.invoiced = true
    · simp [billableHoursStep, billCounted, hinv, List.filter_cons]
    · by_cases hpos : 0 < billableTaskHours t now
      · simp [billableHoursStep, billCounted, hinv, hpos, billLine,
          List.filter_cons, add_assoc, List.append_assoc]
      · simp [billableHoursStep, billCounted, hinv, hpos, List.filter_cons]

theorem sum_over_uninvoiced (now : ℤ) (ts : List Task) (f : Task → ℚ)
    (h0 : ∀ t ∈ ts, ¬ 0 < billableTaskHours t now → f t = 0) :
    ((ts.filter (fun t => !t.invoiced)).map f).sum
      = ((ts.filter (billCounted now)).map f).sum := by
  induction ts with
  | nil => rfl
  | cons t ts ih =>
    have ih' := ih (fun q hq => h0 q (List.mem_cons_of_mem _ hq))
    by_cases hinv : t.invoiced = true
    · simp [List.filter_cons, billCounted, hinv, ih']
    · by_cases hpos : 0 < billableTaskHours t now
      · simp [List.filter_cons, billCounted, hinv, hpos, ih']
      · have hz := h0 t (List.mem_cons_self t ts) hpos
        simp [List.filter_cons, billCounted, hinv, hpos, ih', hz]

/-- C7: tasks with a truthy `invoice_id` are excluded from the
unbilled-hours totals; every uninvoiced task contributes its hours times
its own rate (tasks with nonnegative hours); and on the spec's concrete
pair — one invoiced task of 2h at rate 50 and one uninvoiced of 1h at
rate 50 — the unbilled totals are 1h and $50. -/
theorem unbilled_excludes_invoiced (tasks : List Task) (now : ℤ)
    (hpos : ∀ t ∈ tasks, 0 ≤ billableTaskHours t now) :
    (getBillableHoursAgg tasks now).totalHours
      = ((tasks.filter (fun t => !t.invoiced)).map
          (fun t => billableTaskHours t now)).sum ∧
    (getBillableHoursAgg tasks now).totalBillable
      = ((tasks.filter (fun t => !t.invoiced)).map
          (fun t => billableTaskHours t now * t.rate)).sum ∧
    getBillableHoursAgg
        [⟨some [[1000, 8200]], 50, true⟩, ⟨some [[1000, 4600]], 50, false⟩] now
      = ⟨1, 50, [(1, 50)]⟩ := by
  refine ⟨?_, ?_, ?_⟩
  · rw [getBillableHoursAgg, foldl_billStep,
      sum_over_uninvoiced now tasks _
        (fun t ht hnp => le_antisymm (not_lt.mp hnp) (hpos t ht))]
    simp
  · rw [getBillableHoursAgg, foldl_billStep,
      sum_over_uninvoiced now tasks _
        (fun t ht hnp => by
          rw [le_antisymm (not_lt.mp hnp) (hpos t ht), zero_mul])]
    simp
  · have h1 : billableTaskHours ⟨some [[1000, 8200]], 50, true⟩ now = 2 := by
      norm_num [billableTaskHours, billableTaskSeconds, billableStep, sessionStart]
    have h2 : billableTaskHours ⟨some [[1000, 4600]], 50, false⟩ now = 1 := by
      norm_num [billableTaskHours, billableTaskSeconds, billableStep, sessionStart]
    simp [getBillableHoursAgg, billableHoursStep, h1, h2]

theorem unbilled_excludes_invoiced_witness :
    (∀ t ∈ [(⟨some [[1000, 8200]], 50, true⟩ : Task),
            ⟨some [[1000, 4600]], 50, false⟩], 0 ≤ billableTaskHours t 9000) ∧
    getBillableHoursAgg
        [⟨some [[1000, 8200]], 50, true⟩, ⟨some [[1000, 4600]], 50, false⟩] 9000
      = ⟨1, 50, [(1, 50)]⟩ := by
  have hpos : ∀ t ∈ [(⟨some [[1000, 8200]], 50, true⟩ : Task),
      ⟨some [[1000, 4600]], 50, false⟩], 0 ≤ billableTaskHours t 9000 := by
    intro t ht
    simp only [List.mem_cons, List.not_mem_nil, or_false] at ht
    rcases ht with rfl | rfl <;>
      norm_num [billableTaskHours, billableTaskSeconds, billableStep, sessionStart]
  exact ⟨hpos, (unbilled_excludes_invoiced _ 9000 hpos).2.2⟩

/-! Characterizing the fold of the project summary. -/

theorem foldl_projectStep (taskRate : ℚ) (now : ℤ) (ts : List Task) (acc : ProjAgg) :
    ts.foldl (projectStep taskRate now) acc =
      { totalHours := acc.totalHours + (ts.map (fun t => projTaskHours t now)).sum,
        runningTasks := acc.runningTasks + (ts.map (projRunningCount now)).sum,
        breakdown := acc.breakdown ++ ts.map (projLine taskRate now) } := by
  induction ts generalizing acc with
  | nil => simp
  | cons t ts ih =>
    rw [List.foldl_cons, ih (projectStep taskRate now acc t)]
    cases htl : t.timeLog with
    | none =>
      simp [projectStep, htl, projTaskHours, projRunningCount, projLine,
        getTasksDerive, List.append_assoc, add_assoc]
    | some logs =>
      simp [projectStep, htl, projTaskHours, projRunningCount, projLine,
        getTasksDerive, List.append_assoc, add_assoc]

/-- C6: an unparseable stored time-log yields elapsed 0 and not-running
in both the listing and detail derivations, and in the project summary
a malformed task leaves the totals and running count of the remaining
tasks untouched while the report still lists every task (the malformed
one as its bare line). -/
theorem malformed_degrades (now : ℤ) (pre post : List Task) (m : Task)
    (tr : ℚ) (hm : m.timeLog = none) :
    getTasksDerive none now = (0, false) ∧
    getTaskDetailsDerive none now = (0, false, []) ∧
    (getProjectSummaryAgg (pre ++ m :: post) tr now).totalHours
      = (getProjectSummaryAgg (pre ++ post) tr now).totalHours ∧
    (getProjectSummaryAgg (pre ++ m :: post) tr now).runningTasks
      = (getProjectSummaryAgg (pre ++ post) tr now).runningTasks ∧
    (getProjectSummaryAgg (pre ++ m :: post) tr now).breakdown
      = (getProjectSummaryAgg pre tr now).breakdown
        ++ BreakdownLine.failed :: (getProjectSummaryAgg post tr now).breakdown := by
  refine ⟨rfl, rfl, ?_, ?_, ?_⟩ <;>
    simp [getProjectSummaryAgg, foldl_projectStep, projectStep, hm,
      projTaskHours, getTasksDerive, projRunningCount, projLine]

theorem malformed_degrades_witness :
    getTasksDerive none 9000 = (0, false) ∧
    (getProjectSummaryAgg
        [⟨some [[1000, 4600]], 50, false⟩, ⟨none, 0, false⟩] 0 9000).totalHours
      = (getProjectSummaryAgg [⟨some [[1000, 4600]], 50, false⟩] 0 9000).totalHours ∧
    (getProjectSummaryAgg
        [⟨some [[1000, 4600]], 50, false⟩, ⟨none, 0, false⟩] 0 9000).breakdown
      = (getProjectSummaryAgg [⟨some [[1000, 4600]], 50, false⟩] 0 9000).breakdown
        ++ [BreakdownLine.failed] := by
  have h := malformed_degrades 9000 [⟨some [[1000, 4600]], 50, false⟩] []
    ⟨none, 0, false⟩ 0 rfl
  exact ⟨h.1, h.2.2.1, by simpa using h.2.2.2.2⟩

/-! Billable totals: code against spec. -/

/-- C2 counterexample: a project with `task_rate = 50` holding a single
one-hour task with its own rate 100.  The code's accumulated total
billable is `total_hours * task_rate = 50`, while the spec's sum of
elapsed hours times resolved rate is 100. -/
theorem project_total_rate_counterexample :
    projectTotalBillable [⟨some [[1000, 4600]], 100, false⟩] 50 5000 = 50 ∧
    specResolvedTotalBillable [⟨some [[1000, 4600]], 100, false⟩] 50 5000 = 100 ∧
    projectTotalBillable [⟨some [[1000, 4600]], 100, false⟩] 50 5000
      ≠ specResolvedTotalBillable [⟨some [[1000, 4600]], 100, false⟩] 50 5000 := by
  have he : getTasksElapsed [[(1000 : ℤ), 4600]] 5000 = (3600, false) := by decide
  have h1 : projectTotalBillable [⟨some [[1000, 4600]], 100, false⟩] 50 5000 = 50 := by
    rw [projectTotalBillable, getProjectSummaryAgg, foldl_projectStep]
    norm_num [projTaskHours, getTasksDerive, he]
  have h2 : specResolvedTotalBillable [⟨some [[1000, 4600]], 100, false⟩] 50 5000
      = 100 := by
    norm_num [specResolvedTotalBillable, getTasksDerive, he, resolveRate]
  refine ⟨h1, h2, ?_⟩
  rw [h1, h2]
  norm_num

/-- C2 amended: in the project summary each task's breakdown line bills
its hours at the resolved rate (own rate, falling back to the project
`task_rate` when zero), but the accumulated total billable is the total
hours of all tasks times the project `task_rate`; in the unbilled-hours
report the total billable is the sum of each counted task's hours times
that task's own rate, with no fallback. -/
theorem billable_totals_amended (tasks : List Task) (taskRate : ℚ) (now : ℤ) :
    projectTotalBillable tasks taskRate now
      = (tasks.map (fun t => projTaskHours t now)).sum * taskRate ∧
    (getProjectSummaryAgg tasks taskRate now).breakdown
      = tasks.map (projLine taskRate now) ∧
    (getBillableHoursAgg tasks now).totalBillable
      = ((tasks.filter (billCounted now)).map
          (fun t => billableTaskHours t now * t.rate)).sum := by
  refine ⟨?_, ?_, ?_⟩
  · rw [projectTotalBillable, getProjectSummaryAgg, foldl_projectStep]
    simp
  · rw [getProjectSummaryAgg, foldl_projectStep]
    simp
  · rw [getBillableHoursAgg, foldl_billStep]
    simp

/-! Truncated display against full-set totals. -/

/-- C8: the unbilled-hours report displays only the first 10 task
summaries while its totals range over every counted task, and the
revenue-by-client report displays only the first `limit` clients while
its grand total sums every client's revenue and each displayed
percentage divides by that grand total. -/
theorem totals_over_full_set (tasks : List Task) (now : ℤ)
    (clientRevenue : List (ℕ × ℚ)) (limit : ℕ) :
    billableShown tasks now = (getBillableHoursAgg tasks now).summaries.take 10 ∧
    (getBillableHoursAgg tasks now).summaries
      = (tasks.filter (billCounted now)).map (billLine now) ∧
    (getBillableHoursAgg tasks now).totalHours
      = ((tasks.filter (billCounted now)).map (fun t => billableTaskHours t now)).sum ∧
    (getBillableHoursAgg tasks now).totalBillable
      = ((tasks.filter (billCounted now)).map
          (fun t => billableTaskHours t now * t.rate)).sum ∧
    (getRevenueByClient clientRevenue limit).totalRevenue
      = (clientRevenue.map (fun c => c.2)).sum ∧
    (getRevenueByClient clientRevenue limit).shown.length ≤ limit ∧
    (getRevenueByClient clientRevenue limit).shown
      = ((clientRevenue.mergeSort (fun a b => decide (b.2 ≤ a.2))).take limit).map
          (fun c => (c.1, c.2,
            if 0 < (getRevenueByClient clientRevenue limit).totalRevenue
            then c.2 / (getRevenueByClient clientRevenue limit).totalRevenue * 100
            else 0)) := by
  refine ⟨rfl, ?_, ?_, ?_, ?_, ?_, ?_⟩
  · rw [getBillableHoursAgg, foldl_billStep]; simp
  · rw [getBillableHoursAgg, foldl_billStep]; simp
  · rw [getBillableHoursAgg, foldl_billStep]; simp
  · rw [getRevenueByClient]
    exact List.Perm.sum_eq
      (List.Perm.map _ (List.mergeSort_perm clientRevenue _))
  · rw [getRevenueByClient]
    simp only [List.length_map]
    exact (List.length_take_le _ _)
  · rw [getRevenueByClient]

end Ninja
